import Mathlib

/-!
Verification of the ThinkNotes pipeline & checkpoint engine.

This file contains a shallow embedding of the core logic of the ThinkNotes
repository (src/App.tsx and src/components/ChatPanel.tsx): the line diff
`getDiff`, the placeholder substitution `processedContent`, the sync
pipeline `handleSync`, the checkpoint restoration `restoreCheckpoint`, and
the streamed-directive extraction performed in the chat panel's
`handleSend`.  Strings are modelled as Lean `String` (a list of
characters).  JavaScript's `result.replace(new RegExp(pattern, 'g'), v)`
is modelled in three parts: `patOk` checks that the interpolated pattern
compiles (group/class balance and escapes); `effectivePattern` gives the
fixed text the compiled pattern matches for a word-character name —
the literal placeholder, except that an all-digit name turns the inner
braces into a repetition quantifier; and `getSubstitution` expands the
ECMAScript `$`-escapes of the replacement string (`$$`, `$&`, dollar
backquote, `$'`), so `jsReplaceF` performs left-to-right non-overlapping
replacement of the matched text by that expansion.  Recursive scanners
use an explicit fuel argument bounded by the input length so that every
definition is a computable structural recursion.
-/

deriving instance DecidableEq for Except

namespace ThinkNotes

/-- Whitespace test used by the JavaScript `trim`, `\s` and split logic
(ASCII space, tab, newline, carriage return, form feed). -/
def isWSChar (c : Char) : Bool :=
  c == ' ' || c == '\t' || c == '\n' || c == '\r' || c == '\x0c'

/-- JavaScript `String.prototype.trim`: drop whitespace from both ends. -/
def trimL (l : List Char) : List Char :=
  ((l.dropWhile isWSChar).reverse.dropWhile isWSChar).reverse

/-- JavaScript `str.split('\n')` on the character list: `""` splits to
`[""]`, a trailing newline yields a trailing empty line. -/
def splitNl : List Char → List (List Char)
  | [] => [[]]
  | c :: cs =>
    if c = '\n' then [] :: splitNl cs
    else
      match splitNl cs with
      | [] => [[c]]
      | l :: ls => (c :: l) :: ls

/-- `oldStr.split('\n')` as it appears in `getDiff` (src/App.tsx line 39). -/
def splitLines (s : String) : List String :=
  (splitNl s.data).map (fun l => ⟨l⟩)

/-- Case-insensitive character comparison (regex flag `i`). -/
def lowerEq (a b : Char) : Bool := a.toLower == b.toLower

/-- Case-insensitive prefix test. -/
def isPrefixCI : List Char → List Char → Bool
  | [], _ => true
  | _ :: _, [] => false
  | a :: as, b :: bs => lowerEq a b && isPrefixCI as bs

/-- Does `pat` occur (case-insensitively) anywhere in the list? -/
def containsCI (pat : List Char) : List Char → Bool
  | [] => pat.isEmpty
  | c :: cs => isPrefixCI pat (c :: cs) || containsCI pat cs

/-- Does `pat` occur (case-sensitively) anywhere in the list?  This is the
match test of a regex whose pattern is the literal `pat`. -/
def containsSub (pat : List Char) : List Char → Bool
  | [] => pat.isEmpty
  | c :: cs => pat.isPrefixOf (c :: cs) || containsSub pat cs

/-- Split at the first case-insensitive occurrence of `pat`: returns the
text before the match and the text after it. -/
def splitFirstCI (pat : List Char) : List Char → Option (List Char × List Char)
  | [] => if pat.isEmpty then some ([], []) else none
  | c :: cs =>
    if isPrefixCI pat (c :: cs) then some ([], (c :: cs).drop pat.length)
    else
      match splitFirstCI pat cs with
      | some (pre, post) => some (c :: pre, post)
      | none => none

/-- Auxiliary fuelled literal replacement with the replacement text
inserted verbatim: leftmost, non-overlapping, continue scanning after the
replaced span.  The faithful model `jsReplaceF` below provably coincides
with this when the replacement contains no `$`.  The fuel only serves
termination; it is instantiated with the input length, which dominates
the recursion depth. -/
def replaceAllF (pat rep : List Char) : Nat → List Char → List Char
  | 0, s => s
  | _ + 1, [] => []
  | f + 1, c :: cs =>
    if pat ≠ [] ∧ pat.isPrefixOf (c :: cs) = true then
      rep ++ replaceAllF pat rep f ((c :: cs).drop pat.length)
    else
      c :: replaceAllF pat rep f cs

/-- Auxiliary verbatim literal replacement on character lists. -/
def replaceAllL (pat rep s : List Char) : List Char :=
  replaceAllF pat rep s.length s

/-- Auxiliary verbatim literal replacement on strings. -/
def replaceVerbatim (s pat rep : String) : String :=
  ⟨replaceAllL pat.data rep.data s.data⟩

/-- No `$` occurs in the replacement text. -/
def dollarFree (l : List Char) : Bool := l.all (fun c => !(c == '$'))

/-- A non-empty name consisting solely of decimal digits. -/
def digitsOnly (s : String) : Bool := !s.data.isEmpty && s.data.all Char.isDigit

/-- The numeric value of a decimal digit sequence. -/
def decValue (l : List Char) : Nat :=
  l.foldl (fun acc c => acc * 10 + (c.toNat - ('0').toNat)) 0

/-- What the regex compiled from ``{{key}}`` matches, for a key made of
word characters, per Annex B pattern parsing.  When the key is entirely
digits, `{key}` is a repetition quantifier on the second `{`: the pattern
`{{2}}` is the atom `{` repeated exactly twice followed by a literal `}`,
so it matches two open braces and a close brace — not the literal
placeholder.  For every other word-character key no brace can start a
quantifier, all four braces are literal, and the pattern matches exactly
the placeholder text.  In both cases the compiled pattern matches one
fixed string, returned here.  (Keys containing other characters are
outside this model; every theorem below restricts names to word
characters.) -/
def effectivePattern (key : String) : List Char :=
  if digitsOnly key then List.replicate (decValue key.data) '{' ++ ['}']
  else ("\x7b\x7b" ++ key ++ "\x7d\x7d").data

/-- ECMAScript `GetSubstitution` for a string replacement and a pattern
with no capture groups: `$$` inserts `$`, `$&` the matched text, `$`
followed by a backquote (`\x60`) the text before the match, `$'` the
text after it; any other `$`-sequence — including `$n`, since there are
no captures — is passed through literally, as is a trailing `$`.  The
Bool argument records a pending `$` read from the previous position. -/
def getSubstitution (matched before after : List Char) : Bool → List Char → List Char
  | false, [] => []
  | true, [] => ['$']
  | true, c :: rest =>
    if c = '$' then '$' :: getSubstitution matched before after false rest
    else if c = '&' then matched ++ getSubstitution matched before after false rest
    else if c = '\x60' then before ++ getSubstitution matched before after false rest
    else if c = '\x27' then after ++ getSubstitution matched before after false rest
    else '$' :: c :: getSubstitution matched before after false rest
  | false, c :: rest =>
    if c = '$' then getSubstitution matched before after true rest
    else c :: getSubstitution matched before after false rest

/-- The model of `result.replace(new RegExp(…, 'g'), rep)`: scan left to
right; at each occurrence of the compiled pattern's matched text, emit
the `GetSubstitution` expansion of `rep` and continue after the span.
`before` accumulates the original text already scanned (for the
`$`-backquote escape).  The fuel is instantiated with the input length,
which dominates the recursion depth. -/
def jsReplaceF (pat rep : List Char) : Nat → List Char → List Char → List Char
  | 0, _, s => s
  | _ + 1, _, [] => []
  | f + 1, before, c :: cs =>
    if pat ≠ [] ∧ pat.isPrefixOf (c :: cs) = true then
      getSubstitution pat before ((c :: cs).drop pat.length) false rep
        ++ jsReplaceF pat rep f (before ++ pat) ((c :: cs).drop pat.length)
    else
      c :: jsReplaceF pat rep f (before ++ [c]) cs

/-- The model of `s.replace(new RegExp("{{" + key + "}}", 'g'), rep)` for
a word-character key: global replacement of the compiled pattern's
matched text with the `GetSubstitution` expansion of `rep`. -/
def jsReplaceAll (s : String) (key : String) (rep : String) : String :=
  ⟨jsReplaceF (effectivePattern key) rep.data s.data.length [] s.data⟩

/-! ## The line diff (src/App.tsx, `getDiff`, lines 38-53) -/

inductive DiffType where
  | added
  | removed
  | unchanged
deriving DecidableEq, Repr

structure DiffLine where
  type : DiffType
  content : String
deriving DecidableEq, Repr

/-- The two-cursor walk of `getDiff` (src/App.tsx lines 42-51).  The code
loops `while (i < old.length || j < new.length)`; a step consumes at least
one line from one of the two sides, so the total number of remaining lines
serves as fuel.  Branches in source order: matching heads emit `unchanged`
and advance both cursors; otherwise, if the new side is non-empty and the
current new line does not occur in the remaining old lines (or the old
side is exhausted), emit `added` and advance the new cursor; otherwise
emit `removed` and advance the old cursor. -/
def diffLinesF : Nat → List String → List String → List DiffLine
  | 0, _, _ => []
  | _ + 1, [], [] => []
  | f + 1, [], n :: ns => ⟨.added, n⟩ :: diffLinesF f [] ns
  | f + 1, o :: os, [] => ⟨.removed, o⟩ :: diffLinesF f os []
  | f + 1, o :: os, n :: ns =>
    if o = n then ⟨.unchanged, o⟩ :: diffLinesF f os ns
    else if ¬ n ∈ o :: os then ⟨.added, n⟩ :: diffLinesF f (o :: os) ns
    else ⟨.removed, o⟩ :: diffLinesF f os (n :: ns)

/-- `getDiff(oldStr, newStr)`: split both strings into lines and run the
two-cursor walk; the fuel is the exact bound on the number of steps. -/
def getDiff (oldStr newStr : String) : List DiffLine :=
  diffLinesF ((splitLines oldStr).length + (splitLines newStr).length)
    (splitLines oldStr) (splitLines newStr)

/-- A diff line is kept when reconstructing the new text: everything that
is not `removed`. -/
def keepLine (l : DiffLine) : Bool :=
  match l.type with
  | .removed => false
  | _ => true

/-- Reconstruction of the new side from a diff: keep the `unchanged` and
`added` lines, in order. -/
def reconstructNew (d : List DiffLine) : List String :=
  (d.filter keepLine).map DiffLine.content

/-- Modelled from the claim's words, for refinement comparison with
`diffLinesF`: the same greedy walk but with the claimed branch condition —
emit `Added` when the current new-side line DOES occur in the remaining
old-side lines, else emit `Removed`.  (The source tests the negated
membership.) -/
def diffSpecClaimF : Nat → List String → List String → List DiffLine
  | 0, _, _ => []
  | _ + 1, [], [] => []
  | f + 1, [], n :: ns => ⟨.added, n⟩ :: diffSpecClaimF f [] ns
  | f + 1, o :: os, [] => ⟨.removed, o⟩ :: diffSpecClaimF f os []
  | f + 1, o :: os, n :: ns =>
    if o = n then ⟨.unchanged, o⟩ :: diffSpecClaimF f os ns
    else if n ∈ o :: os then ⟨.added, n⟩ :: diffSpecClaimF f (o :: os) ns
    else ⟨.removed, o⟩ :: diffSpecClaimF f os (n :: ns)

/-- The claimed walk at string level. -/
def getDiffSpecClaim (oldStr newStr : String) : List DiffLine :=
  diffSpecClaimF ((splitLines oldStr).length + (splitLines newStr).length)
    (splitLines oldStr) (splitLines newStr)

/-- The amended specification walk: as the claim states it but with the
branch condition inverted — emit `Added` when the current new-side line
occurs nowhere in the remaining old-side lines (or the old side is
exhausted), else emit `Removed` to let the old cursor catch up. -/
def diffSpecAmendedF : Nat → List String → List String → List DiffLine
  | 0, _, _ => []
  | _ + 1, [], [] => []
  | f + 1, [], n :: ns => ⟨.added, n⟩ :: diffSpecAmendedF f [] ns
  | f + 1, o :: os, [] => ⟨.removed, o⟩ :: diffSpecAmendedF f os []
  | f + 1, o :: os, n :: ns =>
    if o = n then ⟨.unchanged, o⟩ :: diffSpecAmendedF f os ns
    else if n ∈ o :: os then ⟨.removed, o⟩ :: diffSpecAmendedF f os (n :: ns)
    else ⟨.added, n⟩ :: diffSpecAmendedF f (o :: os) ns

/-- The amended walk at string level. -/
def getDiffSpecAmended (oldStr newStr : String) : List DiffLine :=
  diffSpecAmendedF ((splitLines oldStr).length + (splitLines newStr).length)
    (splitLines oldStr) (splitLines newStr)

/-! ## Variables and placeholder substitution
(src/App.tsx, `processedContent`, lines 352-369) -/

/-- A scalar table cell as produced by the embedded SQL engine.  Rendering
follows JavaScript `String(cell)`. -/
inductive Scalar where
  | str (v : String)
  | int (v : Int)
  | bool (v : Bool)
  | null
deriving DecidableEq, Repr

/-- JavaScript `String(cell)` for the scalar cells. -/
def Scalar.render : Scalar → String
  | .str v => v
  | .int v => toString v
  | .bool v => if v then "true" else "false"
  | .null => "null"

/-- The `TableData` shape of src/types.ts: `{ columns, values }`. -/
structure TableData where
  columns : List String
  values : List (List Scalar)
deriving DecidableEq, Repr

/-- A variable value: `string | TableData` (src/types.ts `Record<string,
string | TableData>`). -/
inductive Value where
  | str (s : String)
  | table (t : TableData)
deriving DecidableEq, Repr

/-- The pipe-delimited markup rendering of a table (src/App.tsx lines
360-364): header row, separator row, one row per record, joined by
newlines. -/
def renderTable (t : TableData) : String :=
  String.intercalate "\n"
    (("| " ++ String.intercalate " | " t.columns ++ " |") ::
     ("| " ++ String.intercalate " | " (t.columns.map (fun _ => "---")) ++ " |") ::
     t.values.map (fun row =>
       "| " ++ String.intercalate " | " (row.map Scalar.render) ++ " |"))

/-- The replacement text for a variable: the string itself, or the table
rendered as a markup block. -/
def Value.render : Value → String
  | .str s => s
  | .table t => renderTable t

/-- Validity of an ECMAScript (Annex B) regex pattern, restricted to the
compile-time checks an interpolated variable name can trip: `\` must
escape a following character, `(`/`)` must balance, `[` must be
terminated by `]`.  Other characters — including `{`, `}` and a lone
`]` — do not make compilation fail in Annex B syntax (though braces may
still be parsed as quantifiers, which `effectivePattern` accounts for).
The first argument records that the previous character was an unconsumed
`\`, the second is true inside a character class, the third is the
open-group depth. -/
def patScan : Bool → Bool → Nat → List Char → Bool
  | esc, ic, d, [] => if esc then false else if ic then false else d == 0
  | true, ic, d, _ :: rest => patScan false ic d rest
  | false, ic, d, c :: rest =>
    if c = '\\' then patScan true ic d rest
    else if ic then
      if c = ']' then patScan false false d rest else patScan false true d rest
    else if c = '(' then patScan false false (d + 1) rest
    else if c = ')' then
      (if d == 0 then false else patScan false false (d - 1) rest)
    else if c = '[' then patScan false true d rest
    else patScan false false d rest

/-- Does `new RegExp(pat)` compile? -/
def patOk (pat : List Char) : Bool := patScan false false 0 pat

/-- A word character: letter, digit or underscore (regex `\w`). -/
def isWordChar (c : Char) : Bool := c.isAlphanum || c == '_'

/-- A string made only of word characters. -/
def wordOnly (s : String) : Bool := s.data.all isWordChar

/-- The substitution loop of `processedContent` (src/App.tsx lines
352-369), with the regex-compilation step made explicit: for each entry
`(key, value)` of the variable set, in order, the code builds
`new RegExp(`{{key}}`, 'g')` — which throws on an invalid pattern — and
then calls `result.replace(regex, renderedValue)`, modelled by
`jsReplaceAll` (quantifier-aware matching and `GetSubstitution`
replacement). -/
def processedContentE (doc : String) : List (String × Value) → Except String String
  | [] => .ok doc
  | kv :: rest =>
    if patOk ("\x7b\x7b" ++ kv.1 ++ "\x7d\x7d").data then
      processedContentE (jsReplaceAll doc kv.1 kv.2.render) rest
    else
      .error ("SyntaxError: invalid regular expression: \x7b\x7b" ++ kv.1 ++ "\x7d\x7d")

/-- The same loop under the assumption that every pattern compiles: the
plain fold of `jsReplaceAll`. -/
def substituteVars (doc : String) (vars : List (String × Value)) : String :=
  vars.foldl (fun r kv => jsReplaceAll r kv.1 kv.2.render) doc

/-- Auxiliary fold of verbatim literal replacements; `substituteVars`
provably reduces to it when the names are not entirely digits and the
rendered values contain no `$`. -/
def substituteVarsV (doc : String) (vars : List (String × Value)) : String :=
  vars.foldl (fun r kv => replaceVerbatim r ("\x7b\x7b" ++ kv.1 ++ "\x7d\x7d") kv.2.render) doc

/-! ## Token-level characterization of substitution

A document is viewed as a sequence of literal segments and placeholders
`{{name}}`.  When the literal segments, the placeholder names and the
rendered variable values are all brace-free, the sequential replacement
loop of `processedContent` acts exactly as the specification's
simultaneous substitution: each bound placeholder is replaced in place by
its rendered value and everything else is left verbatim. -/

inductive Tok where
  | lit (s : List Char)
  | ph (name : String)
deriving DecidableEq, Repr

/-- The text of a token: a literal segment is itself, a placeholder
`ph name` renders as `{{name}}`. -/
def Tok.render : Tok → List Char
  | .lit s => s
  | .ph n => ("\x7b\x7b" ++ n ++ "\x7d\x7d").data

/-- The text of a token sequence. -/
def flat : List Tok → List Char
  | [] => []
  | t :: ts => t.render ++ flat ts

/-- The document denoted by a token sequence. -/
def renderDoc (ts : List Tok) : String := ⟨flat ts⟩

/-- No `{` or `}` occurs in the segment. -/
def braceFree (l : List Char) : Bool :=
  l.all (fun c => !(c == '{') && !(c == '}'))

/-- Well-formedness of a token: literal segments and placeholder names are
brace-free. -/
def tokWF : Tok → Bool
  | .lit s => braceFree s
  | .ph n => braceFree n.data

def wfToks (ts : List Tok) : Bool := ts.all tokWF

/-- Well-formedness of a variable set for the amended substitution
claims: names are word characters and not entirely digits (so every
interpolated pattern matches exactly the literal placeholder), and
rendered values contain neither braces (so no replacement can create or
destroy a placeholder) nor `$` (so the replacement is inserted as plain
text by `GetSubstitution`). -/
def wfVars (vars : List (String × Value)) : Bool :=
  vars.all (fun kv =>
    wordOnly kv.1 && !digitsOnly kv.1 &&
    braceFree kv.2.render.data && dollarFree kv.2.render.data)

/-- Auxiliary well-formedness for the verbatim-fold lemma: names are word
characters and rendered values are brace-free. -/
def wfVarsV (vars : List (String × Value)) : Bool :=
  vars.all (fun kv => wordOnly kv.1 && braceFree kv.2.render.data)

/-- The first binding of a name in the variable set (JavaScript object
keys are unique, so this is the binding). -/
def findVal (vars : List (String × Value)) (n : String) : Option Value :=
  (vars.find? (fun kv => kv.1 == n)).map (fun kv => kv.2)

/-- The specification's simultaneous substitution on one token: a bound
placeholder becomes its rendered value, everything else is untouched. -/
def substTok (vars : List (String × Value)) : Tok → Tok
  | .lit s => .lit s
  | .ph n =>
    match findVal vars n with
    | some v => .lit v.render.data
    | none => .ph n

/-- Effect of one replacement pass on one token. -/
def replTok (k : String) (rep : List Char) : Tok → Tok
  | .lit s => .lit s
  | .ph n => if n = k then .lit rep else .ph n

/-! ## Application state, the sync pipeline and checkpoint restoration
(src/App.tsx, `handleSync` lines 164-194, `restoreCheckpoint` lines
196-245) -/

/-- A JavaScript runtime value, as far as the pipeline inspects one:
`truthiness` and `typeof`.  Objects and arrays carry their structure so
that unvalidated Reader outputs can be stored as-is. -/
inductive JsValue where
  | null
  | undef
  | bool (b : Bool)
  | num (n : Int)
  | str (s : String)
  | obj (fields : List (String × JsValue))
  | arr (elems : List JsValue)

/-- JavaScript truthiness (`0`, `""`, `null`, `undefined`, `false` are
falsy; every object and array is truthy). -/
def JsValue.truthy : JsValue → Bool
  | .null => false
  | .undef => false
  | .bool b => b
  | .num n => n != 0
  | .str s => s != ""
  | .obj _ => true
  | .arr _ => true

/-- JavaScript `typeof v === 'object'` (true for objects, arrays and
`null`). -/
def JsValue.typeofObject : JsValue → Bool
  | .null => true
  | .obj _ => true
  | .arr _ => true
  | _ => false

/-- The `DatabaseState` slice the pipeline reads and writes: the
`isSyncing` flag and the error field.  (The `tables` mirror produced by
`refreshDbState` is a UI inspector concern and outside the claims.) -/
structure DbState where
  isSyncing : Bool
  error : Option String

/-- A checkpoint (`GlobalState` of src/types.ts).  The field `vars` is the
source's `variables` field (`variables` is not a usable identifier in
Lean). -/
structure GlobalState where
  content : String
  writerScript : String
  readerScript : String
  vars : JsValue
  description : String
  timestamp : Int

/-- The application state slice touched by `handleSync` and
`restoreCheckpoint`: the document, the stored scripts, the variable set,
the database handle, the database status and the checkpoint history.
(The chat message list and the view mode are UI concerns outside the
claims.)  `Db` abstracts the embedded sql.js database value. -/
structure AppState (Db : Type) where
  content : String
  writerScript : String
  readerScript : String
  vars : JsValue
  db : Option Db
  dbState : DbState
  history : List GlobalState

/-- The semantics of evaluating and running a script text against a
database, supplied as a capability: scripts are untrusted JavaScript run
by `eval`, so the embedding abstracts a script run as a function from the
database value to the database value after the run plus an outcome.  A
Writer returns `some e` when it threw with message `e` — its partial
database mutations persist.  A Reader returns its produced value or the
thrown message. -/
structure ScriptSem (Db : Type) where
  runWriter : String → Db → Db × Option String
  runReader : String → Db → Db × Except String JsValue

/-- `overridingScripts?.writer ? … : writerScript` — the override is used
only when it is a truthy (non-empty) string, matching
`if (overridingScripts?.writer)` and `overridingScripts?.reader ||
readerScript`. -/
def chooseScript : Option String → String → String
  | some w, stored => if w = "" then stored else w
  | none, stored => stored

/-- `handleSync` (src/App.tsx lines 164-194).  Returns the state after the
call together with the settled result of the returned promise: `.ok` for
a resolved value, `.error` for a rethrown pipeline error.
Control flow of the source: bail out with `{}` when there is no database
or a sync is in flight; otherwise set `isSyncing` and clear the error, run
the Writer (override or stored), then the Reader, store the Reader output
with `if (newVars && typeof newVars === 'object') setVariables(newVars)`,
return `newVars || {}`; a thrown error is recorded as
`Pipeline Error: …` and rethrown; `finally` clears `isSyncing`. -/
def handleSync {Db : Type} (sem : ScriptSem Db) (ow ore : Option String)
    (s : AppState Db) : AppState Db × Except String JsValue :=
  match s.db with
  | none => (s, .ok (.obj []))
  | some db =>
    if s.dbState.isSyncing then (s, .ok (.obj []))
    else
      match sem.runWriter (chooseScript ow s.writerScript) db with
      | (db1, some e) =>
        ({ s with db := some db1,
                  dbState := ⟨false, some ("Pipeline Error: " ++ e)⟩ },
         .error e)
      | (db1, none) =>
        match sem.runReader (chooseScript ore s.readerScript) db1 with
        | (db2, .error e) =>
          ({ s with db := some db2,
                    dbState := ⟨false, some ("Pipeline Error: " ++ e)⟩ },
           .error e)
        | (db2, .ok newVars) =>
          ({ s with db := some db2,
                    vars :=
                      if newVars.truthy && newVars.typeofObject then newVars
                      else s.vars,
                    dbState := ⟨false, none⟩ },
           .ok (if newVars.truthy then newVars else .obj []))

/-- `restoreCheckpoint` (src/App.tsx lines 196-245).  An out-of-range
index returns without touching anything.  Otherwise the editor and script
states are set from the checkpoint, the history is truncated to
`[0, index]`, and — when a database is present — the checkpoint's scripts
are re-run against it: a failure records `Restore Sync Error: …` (leaving
the restored variables in place), a success stores the Reader output when
it is truthy (`if (newVars) setVariables(newVars)`).  The message-list
filtering and the view-mode switch of the source are UI concerns outside
the claims.  The index is an `Int` because the source guards
`index < 0`. -/
def restoreCheckpoint {Db : Type} (sem : ScriptSem Db) (idx : Int)
    (s : AppState Db) : AppState Db :=
  if idx < 0 ∨ (s.history.length : Int) ≤ idx then s
  else
    match s.history.get? idx.toNat with
    | none => s
    | some cp =>
      let s1 : AppState Db :=
        { s with content := cp.content,
                 writerScript := cp.writerScript,
                 readerScript := cp.readerScript,
                 vars := cp.vars,
                 history := s.history.take (idx.toNat + 1) }
      match s1.db with
      | none => s1
      | some db =>
        match sem.runWriter cp.writerScript db with
        | (db1, some e) =>
          { s1 with db := some db1,
                    dbState := ⟨false, some ("Restore Sync Error: " ++ e)⟩ }
        | (db1, none) =>
          match sem.runReader cp.readerScript db1 with
          | (db2, .error e) =>
            { s1 with db := some db2,
                      dbState := ⟨false, some ("Restore Sync Error: " ++ e)⟩ }
          | (db2, .ok newVars) =>
            { s1 with db := some db2,
                      vars := if newVars.truthy then newVars else cp.vars,
                      dbState := ⟨false, s.dbState.error⟩ }

/-! ## Streamed-directive extraction
(src/components/ChatPanel.tsx, `handleSend`, lines 339-422) -/

/-- First complete `(startTag … endTag)` block, case-insensitively: the
model of the first match of `/start([\s\S]*?)end/gi` — find the first
start tag, then the nearest end tag after it (the body quantifier is
lazy).  Returns `(before, payload, after)`. -/
def extractFirstBlock (st et s : List Char) :
    Option (List Char × List Char × List Char) :=
  match splitFirstCI st s with
  | none => none
  | some (pre, rest) =>
    match splitFirstCI et rest with
    | none => none
    | some (payload, post) => some (pre, payload, post)

/-- Fuelled removal of every `(startTag … endTag)` block: the model of
`text.replace(/start([\s\S]*?)end/gi, '')`.  Each removal strictly
shortens the text (the tags are non-empty), so the input length bounds the
number of rounds. -/
def removeBlocksF (st et : List Char) : Nat → List Char → List Char
  | 0, s => s
  | f + 1, s =>
    match extractFirstBlock st et s with
    | none => s
    | some (pre, _, post) => pre ++ removeBlocksF st et f post

def removeBlocks (st et s : List Char) : List Char :=
  removeBlocksF st et s.length s

/-- The label part of `/\[\[UPDATE:\s*(.*?)\]\]/`: the lazy `.*?` stops at
the first `]]`, and `.` does not match a newline, so a label interrupted
by a newline fails the match. -/
def scanLabel : List Char → Option (List Char × List Char)
  | [] => none
  | c :: cs =>
    if ("]]".data).isPrefixOf (c :: cs) then some ([], (c :: cs).drop 2)
    else if c = '\n' then none
    else
      match scanLabel cs with
      | some (label, rest) => some (c :: label, rest)
      | none => none

/-- First match of `/\[\[UPDATE:\s*(.*?)\]\]([\s\S]*?)\[\[\/UPDATE\]\]/i`:
returns `(label, payload, text with the matched span removed)`. -/
def extractUpdate (s : List Char) :
    Option (List Char × List Char × List Char) :=
  match splitFirstCI ("[[UPDATE:".data) s with
  | none => none
  | some (pre, rest) =>
    match scanLabel (rest.dropWhile isWSChar) with
    | none => none
    | some (label, rest2) =>
      match splitFirstCI ("[[/UPDATE]]".data) rest2 with
      | none => none
      | some (payload, post) => some (label, payload, pre ++ post)

/-- `.replace(/^```(javascript|js)?\s*/, '')` (case-sensitive; alternation
tries `javascript` before `js`). -/
def stripLeadFenceWR (l : List Char) : List Char :=
  if ("```javascript".data).isPrefixOf l then (l.drop 13).dropWhile isWSChar
  else if ("```js".data).isPrefixOf l then (l.drop 5).dropWhile isWSChar
  else if ("```".data).isPrefixOf l then (l.drop 3).dropWhile isWSChar
  else l

/-- `.replace(/^```[a-z]*\s*/i, '')`: with the `i` flag, `[a-z]*` takes
ASCII letters of either case. -/
def stripLeadFenceAny (l : List Char) : List Char :=
  if ("```".data).isPrefixOf l then
    ((l.drop 3).dropWhile Char.isAlpha).dropWhile isWSChar
  else l

/-- `.replace(/```\s*$/, '')`: the leftmost ``` ``` `` followed only by
whitespace up to the end of the string is removed together with that
whitespace. -/
def stripTrailFence : List Char → List Char
  | [] => []
  | c :: cs =>
    if ("```".data).isPrefixOf (c :: cs) && ((c :: cs).drop 3).all isWSChar then []
    else c :: stripTrailFence cs

/-- Does `pat2` occur somewhere after the first occurrence of `pat1`?  The
match test of `/pat1.*pat2/i` on a single line. -/
def afterFirstContains (pat1 pat2 l : List Char) : Bool :=
  match splitFirstCI pat1 l with
  | some (_, rest) => containsCI pat2 rest
  | none => false

/-- The match test of `/^#{3,4}\s+\d+\.\s+.*$/i` on one line. -/
def numberedHeading (l : List Char) : Bool :=
  let hs := l.takeWhile (fun c => c == '#')
  let r1 := l.dropWhile (fun c => c == '#')
  (hs.length == 3 || hs.length == 4) &&
  (!(r1.takeWhile isWSChar).isEmpty &&
   (let r2 := r1.dropWhile isWSChar
    !(r2.takeWhile Char.isDigit).isEmpty &&
    (match r2.dropWhile Char.isDigit with
     | '.' :: r4 => !(r4.takeWhile isWSChar).isEmpty
     | _ => false)))

/-- The match test of `/^#{3,4}\s+Updating\s+(READER|WRITER).*$/i` on one
line. -/
def updatingHeading (l : List Char) : Bool :=
  let hs := l.takeWhile (fun c => c == '#')
  let r1 := l.dropWhile (fun c => c == '#')
  (hs.length == 3 || hs.length == 4) &&
  (!(r1.takeWhile isWSChar).isEmpty &&
   (let r2 := r1.dropWhile isWSChar
    isPrefixCI "Updating".data r2 &&
    (let r3 := r2.drop 8
     !(r3.takeWhile isWSChar).isEmpty &&
     (let r4 := r3.dropWhile isWSChar
      isPrefixCI "READER".data r4 || isPrefixCI "WRITER".data r4))))

/-- The deny-list of `filterJargon` (ChatPanel.tsx lines 375-392): a line
is dropped when any of the forbidden patterns matches it. -/
def forbiddenLine (l : List Char) : Bool :=
  containsCI "db.run".data l || containsCI "db.exec".data l ||
  containsCI "INSERT INTO".data l || containsCI "CREATE TABLE".data l ||
  afterFirstContains "SELECT ".data " FROM".data l ||
  containsCI "sqlite".data l || containsCI "Foreign Key".data l ||
  containsCI "Internal Writer".data l || containsCI "Internal Reader".data l ||
  containsCI "database schema".data l || containsCI "primary key".data l ||
  numberedHeading l || updatingHeading l ||
  containsCI "PIPELINE SYNTHESIS".data l || containsCI "DATA AUDIT".data l ||
  containsCI "FINAL TRANSFORMATION".data l ||
  containsCI "The WRITER remains unchanged".data l ||
  afterFirstContains "I will query '".data "' for".data l

/-- `lines.join('\n')`. -/
def joinNl : List (List Char) → List Char
  | [] => []
  | [l] => l
  | l :: ls => l ++ '\n' :: joinNl ls

/-- `.replace(/\n{3,}/g, '\n\n')`: a maximal run of three or more
newlines collapses to two.  The accumulator counts pending newlines. -/
def collapseNlAux : Nat → List Char → List Char
  | run, [] => List.replicate (min run 2) '\n'
  | run, c :: cs =>
    if c = '\n' then collapseNlAux (run + 1) cs
    else List.replicate (min run 2) '\n' ++ c :: collapseNlAux 0 cs

def collapseNl (l : List Char) : List Char := collapseNlAux 0 l

/-- `filterJargon` (ChatPanel.tsx lines 375-392): split into lines, drop
every line matching a forbidden pattern, rejoin, collapse excessive blank
runs, trim. -/
def filterJargon (t : List Char) : List Char :=
  trimL (collapseNl (joinNl ((splitNl t).filter (fun l => !forbiddenLine l))))

/-- The outcome of processing one full streamed response
(`handleSend`, ChatPanel.tsx lines 335-422): the extracted Writer and
Reader script updates (trimmed, code fences stripped), the document
directive as `(reason, content)` (content trimmed, fences stripped,
jargon-filtered), and the user-visible chat text (tag spans removed,
trimmed, jargon-filtered, with the source's fallback strings). -/
structure ParsedResponse where
  writerUpd : Option String
  readerUpd : Option String
  docUpd : Option (String × String)
  chatContent : String
deriving DecidableEq, Repr

def processResponse (fullText : String) : ParsedResponse :=
  let wSt := "[[UPDATE_WRITER]]".data
  let wEn := "[[/UPDATE_WRITER]]".data
  let rSt := "[[UPDATE_READER]]".data
  let rEn := "[[/UPDATE_READER]]".data
  let writerUpd := (extractFirstBlock wSt wEn fullText.data).map
    (fun x => String.mk (stripTrailFence (stripLeadFenceWR (trimL x.2.1))))
  let readerUpd := (extractFirstBlock rSt rEn fullText.data).map
    (fun x => String.mk (stripTrailFence (stripLeadFenceWR (trimL x.2.1))))
  let cleaned := trimL (removeBlocks rSt rEn (removeBlocks wSt wEn fullText.data))
  match extractUpdate cleaned with
  | some (label, payload, remainder) =>
    let reason := if trimL label = [] then "Assistant Refinement".data else trimL label
    let content := filterJargon (stripTrailFence (stripLeadFenceAny (trimL payload)))
    let chat0 := trimL remainder
    let chat1 :=
      if chat0 = [] then "Assistant applied changes: ".data ++ reason else chat0
    let chat2 := filterJargon chat1
    { writerUpd := writerUpd, readerUpd := readerUpd,
      docUpd := some (⟨reason⟩, ⟨content⟩),
      chatContent :=
        if chat2 = [] then "I've updated your workspace with the requested changes."
        else ⟨chat2⟩ }
  | none =>
    let chat2 := filterJargon cleaned
    { writerUpd := writerUpd, readerUpd := readerUpd, docUpd := none,
      chatContent :=
        if chat2 = [] then "I've updated your workspace with the requested changes."
        else ⟨chat2⟩ }

/-! ## Concrete instances used by witnesses and counterexamples -/

/-- A script semantics over `Db := Nat` whose Writer mutates the database
and then throws. -/
def semFailW : ScriptSem Nat :=
  ⟨fun _ db => (db + 1, some "boom"), fun _ db => (db, .ok .null)⟩

/-- A script semantics whose scripts do nothing. -/
def semId : ScriptSem Nat :=
  ⟨fun _ db => (db, none), fun _ db => (db, .ok (.obj []))⟩

/-- A script semantics whose Reader returns a mapping with a number-shaped
member — the wrong shape per the specification's `VariableSet`. -/
def semBadShape : ScriptSem Nat :=
  ⟨fun _ db => (db, none), fun _ db => (db, .ok (.obj [("x", .num 3)]))⟩

/-- A script semantics whose Reader returns a bare number. -/
def semNum : ScriptSem Nat :=
  ⟨fun _ db => (db, none), fun _ db => (db, .ok (.num 7))⟩

/-- An idle application state with a database and one checkpoint. -/
def sIdle : AppState Nat :=
  ⟨"doc", "w", "r", .obj [("x", .str "5")], some 0, ⟨false, none⟩,
   [⟨"", "w0", "r0", .obj [], "Initial State", 0⟩]⟩

/-- An idle application state with an empty variable set. -/
def sIdle2 : AppState Nat :=
  ⟨"doc", "w", "r", .obj [], some 0, ⟨false, none⟩, []⟩

/-- A state with a sync in flight. -/
def sBusy : AppState Nat :=
  ⟨"doc", "w", "r", .obj [], some 0, ⟨true, none⟩, []⟩

/-- Another state with a sync in flight. -/
def sBusy2 : AppState Nat :=
  ⟨"note", "w2", "r2", .obj [], some 3, ⟨true, some "old"⟩, []⟩

/-- A state with a single checkpoint, used against out-of-range restore. -/
def sHist1 : AppState Nat :=
  ⟨"c2", "w2", "r2", .obj [], some 0, ⟨false, none⟩,
   [⟨"c0", "w0", "r0", .obj [], "Initial State", 0⟩]⟩

/-- A state with three distinct checkpoints. -/
def sHist3 : AppState Nat :=
  ⟨"c2", "w2", "r2", .obj [], some 0, ⟨false, none⟩,
   [⟨"c0", "w0", "r0", .obj [], "Initial State", 0⟩,
    ⟨"c1", "w1", "r1", .obj [], "Applied Template", 1⟩,
    ⟨"c2", "w2", "r2", .obj [], "Manual Edit", 2⟩]⟩

/-- The literal streamed response of the specification's ProtocolParser
test vector. -/
def c5Input : String :=
  "pre [[UPDATE_WRITER]] X [[/UPDATE_WRITER]] mid [[UPDATE: Title]] Y [[/UPDATE]] post"

/-- A variable set whose first value itself contains placeholder
syntax. -/
def varsC8 : List (String × Value) := [("a", .str "\x7b\x7bb\x7d\x7d"), ("b", .str "X")]

/-- A variable set of two plain, brace-free string values. -/
def varsC9 : List (String × Value) := [("av", .str "Z"), ("b", .str "v")]

/-- A document whose nested braces let a replacement create a new bound
placeholder. -/
def docC9 : String := "\x7b\x7ba\x7b\x7bb\x7d\x7d\x7d\x7d"

/-- The specification's example table: one column `a`, rows `1` and
`2`. -/
def tableT : TableData := ⟨["a"], [[.int 1], [.int 2]]⟩

/-- A well-formed token document: `value={{x}} {{t}}{{zz}}`. -/
def tsW : List Tok := [.lit "value=".data, .ph "x", .lit " ".data, .ph "t", .ph "zz"]

/-- Bindings for `x` (a string) and `t` (the example table); `zz` stays
unbound. -/
def varsW : List (String × Value) := [("x", .str "5"), ("t", .table tableT)]

/-! ## Properties and claim theorems -/

theorem data_append (s t : String) : (s ++ t).data = s.data ++ t.data := rfl

theorem data_mk (l : List Char) : (String.mk l).data = l := rfl

theorem mk_data (s : String) : String.mk s.data = s := by cases s; rfl

/-- The fuel of `replaceAllF` is irrelevant once it dominates the input
length. -/
theorem replaceAllF_fuel (pat rep : List Char) :
    ∀ f₁ f₂ s, s.length ≤ f₁ → s.length ≤ f₂ →
      replaceAllF pat rep f₁ s = replaceAllF pat rep f₂ s := by
  intro f₁
  induction f₁ with
  | zero =>
    intro f₂ s h₁ _
    have hs : s = [] := List.eq_nil_of_length_eq_zero (Nat.le_zero.mp h₁)
    subst hs
    cases f₂ <;> rfl
  | succ f ih =>
    intro f₂ s h₁ h₂
    cases s with
    | nil => cases f₂ <;> rfl
    | cons c cs =>
      cases f₂ with
      | zero => exact absurd h₂ (by simp)
      | succ f₂' =>
        rw [replaceAllF, replaceAllF]
        by_cases h : pat ≠ [] ∧ pat.isPrefixOf (c :: cs) = true
        · rw [if_pos h, if_pos h]
          have hpat : 1 ≤ pat.length := by
            cases hp : pat with
            | nil => exact absurd hp h.1
            | cons a as => simp
          congr 1
          apply ih
          · rw [List.length_drop]
            simp only [List.length_cons] at h₁ ⊢
            omega
          · rw [List.length_drop]
            simp only [List.length_cons] at h₂ ⊢
            omega
        · rw [if_neg h, if_neg h]
          congr 1
          apply ih
          · exact Nat.le_of_succ_le_succ h₁
          · exact Nat.le_of_succ_le_succ h₂

theorem replaceAllL_nil (pat rep : List Char) : replaceAllL pat rep [] = [] := rfl

/-- Step lemma: a match at the head of the input is replaced. -/
theorem replaceAllL_cons_match (pat rep : List Char) (c : Char) (cs : List Char)
    (hne : pat ≠ []) (hp : pat.isPrefixOf (c :: cs) = true) :
    replaceAllL pat rep (c :: cs) = rep ++ replaceAllL pat rep ((c :: cs).drop pat.length) := by
  unfold replaceAllL
  rw [show (c :: cs).length = cs.length + 1 from rfl, replaceAllF, if_pos ⟨hne, hp⟩]
  congr 1
  apply replaceAllF_fuel
  · have hpat : 1 ≤ pat.length := by
      cases hq : pat with
      | nil => exact absurd hq hne
      | cons a as => simp
    rw [List.length_drop]
    simp only [List.length_cons]
    omega
  · exact Nat.le_refl _

/-- Step lemma: no match at the head means the head character is copied. -/
theorem replaceAllL_cons_nomatch (pat rep : List Char) (c : Char) (cs : List Char)
    (h : ¬ (pat ≠ [] ∧ pat.isPrefixOf (c :: cs) = true)) :
    replaceAllL pat rep (c :: cs) = c :: replaceAllL pat rep cs := by
  unfold replaceAllL
  rw [show (c :: cs).length = cs.length + 1 from rfl, replaceAllF, if_neg h]

/-- If the literal pattern does not occur in the input, replacement is the
identity. -/
theorem replaceAllL_absent (pat rep : List Char) :
    ∀ s, containsSub pat s = false → replaceAllL pat rep s = s := by
  intro s
  induction s with
  | nil => intro _; rfl
  | cons c cs ih =>
    intro h
    rw [containsSub] at h
    have h1 : pat.isPrefixOf (c :: cs) = false := by
      cases hq : pat.isPrefixOf (c :: cs) <;> simp [hq] at h ⊢
    have h2 : containsSub pat cs = false := by
      cases hq : containsSub pat cs <;> simp [hq] at h ⊢
    rw [replaceAllL_cons_nomatch pat rep c cs (by simp [h1]), ih h2]

theorem reconstructNew_cons_added (n : String) (d : List DiffLine) :
    reconstructNew (⟨.added, n⟩ :: d) = n :: reconstructNew d := by
  unfold reconstructNew
  rw [List.filter_cons_of_pos (by rfl), List.map_cons]

theorem reconstructNew_cons_unchanged (n : String) (d : List DiffLine) :
    reconstructNew (⟨.unchanged, n⟩ :: d) = n :: reconstructNew d := by
  unfold reconstructNew
  rw [List.filter_cons_of_pos (by rfl), List.map_cons]

theorem reconstructNew_cons_removed (n : String) (d : List DiffLine) :
    reconstructNew (⟨.removed, n⟩ :: d) = reconstructNew d := by
  unfold reconstructNew
  rw [List.filter_cons_of_neg (by simp [keepLine])]

/-- Keeping the non-removed lines of the walk reproduces the new-side line
sequence, for any sufficient fuel. -/
theorem diffLinesF_reconstruct :
    ∀ f os ns, os.length + ns.length ≤ f →
      reconstructNew (diffLinesF f os ns) = ns := by
  intro f
  induction f with
  | zero =>
    intro os ns h
    have : ns = [] := by
      cases ns with
      | nil => rfl
      | cons n ns' => simp at h
    subst this
    rfl
  | succ f ih =>
    intro os ns h
    cases os with
    | nil =>
      cases ns with
      | nil => rfl
      | cons n ns' =>
        rw [diffLinesF, reconstructNew_cons_added,
          ih [] ns' (by simp at h ⊢; omega)]
    | cons o os' =>
      cases ns with
      | nil =>
        rw [diffLinesF, reconstructNew_cons_removed]
        exact ih os' [] (by simp at h ⊢; omega)
      | cons n ns' =>
        rw [diffLinesF]
        by_cases heq : o = n
        · rw [if_pos heq, reconstructNew_cons_unchanged,
            ih os' ns' (by simp at h ⊢; omega), heq]
        · rw [if_neg heq]
          by_cases hmem : n ∈ o :: os'
          · rw [if_neg (not_not_intro hmem), reconstructNew_cons_removed]
            exact ih os' (n :: ns') (by simp at h ⊢; omega)
          · rw [if_pos hmem, reconstructNew_cons_added,
              ih (o :: os') ns' (by simp at h ⊢; omega)]

/-- The code's walk and the amended specification walk agree at every
fuel. -/
theorem diffSpecAmendedF_eq_diffLinesF :
    ∀ f os ns, diffSpecAmendedF f os ns = diffLinesF f os ns := by
  intro f
  induction f with
  | zero => intro os ns; rfl
  | succ f ih =>
    intro os ns
    cases os with
    | nil =>
      cases ns with
      | nil => rfl
      | cons n ns' => rw [diffSpecAmendedF, diffLinesF, ih]
    | cons o os' =>
      cases ns with
      | nil => rw [diffSpecAmendedF, diffLinesF, ih]
      | cons n ns' =>
        rw [diffSpecAmendedF, diffLinesF]
        by_cases heq : o = n
        · rw [if_pos heq, if_pos heq, ih]
        · rw [if_neg heq, if_neg heq]
          by_cases hmem : n ∈ o :: os'
          · rw [if_pos hmem, if_neg (not_not_intro hmem), ih]
          · rw [if_neg hmem, if_pos hmem, ih]

theorem isWordChar_ne (c : Char) (h : isWordChar c = true) :
    c ≠ '\\' ∧ c ≠ '(' ∧ c ≠ ')' ∧ c ≠ '[' ∧ c ≠ '{' ∧ c ≠ '}' := by
  refine ⟨?_, ?_, ?_, ?_, ?_, ?_⟩ <;> (intro hc; subst hc; exact absurd h (by decide))

/-- An ordinary character (not `\`, `(`, `)`, `[`) just advances the
scanner outside a class. -/
theorem patScan_ordinary (c : Char) (d : Nat) (rest : List Char)
    (h1 : c ≠ '\\') (h2 : c ≠ '(') (h3 : c ≠ ')') (h4 : c ≠ '[') :
    patScan false false d (c :: rest) = patScan false false d rest := by
  rw [patScan.eq_3]
  rw [if_neg h1, if_neg (by exact Bool.false_ne_true), if_neg h2, if_neg h3, if_neg h4]

/-- Word characters are ordinary for the pattern scanner. -/
theorem patScan_word (d : Nat) :
    ∀ l t, (∀ c ∈ l, isWordChar c = true) →
      patScan false false d (l ++ t) = patScan false false d t := by
  intro l
  induction l with
  | nil => intro t _; rfl
  | cons c cs ih =>
    intro t h
    have hc := isWordChar_ne c (h c (by simp))
    rw [List.cons_append,
      patScan_ordinary c d (cs ++ t) hc.1 hc.2.1 hc.2.2.1 hc.2.2.2.1]
    exact ih t (fun x hx => h x (by simp [hx]))

/-- `{{name}}` compiles as a regex whenever the name is made of word
characters (the braces are literal in Annex B pattern syntax). -/
theorem patOk_wordOnly (k : String) (h : wordOnly k = true) :
    patOk ("\x7b\x7b" ++ k ++ "\x7d\x7d").data = true := by
  have hdata : ("\x7b\x7b" ++ k ++ "\x7d\x7d").data = '{' :: '{' :: (k.data ++ ['}', '}']) := by
    rw [data_append, data_append]
    rfl
  unfold patOk
  rw [hdata]
  rw [patScan_ordinary '{' 0 _ (by decide) (by decide) (by decide) (by decide)]
  rw [patScan_ordinary '{' 0 _ (by decide) (by decide) (by decide) (by decide)]
  rw [patScan_word 0 k.data ['}', '}'] (by
    intro c hc
    exact List.all_eq_true.mp h c hc)]
  decide

/-- When every variable name is made of word characters, the substitution
loop never throws and equals the replacement fold `substituteVars`. -/
theorem processedContentE_ok :
    ∀ (vars : List (String × Value)) (doc : String),
      (∀ kv ∈ vars, wordOnly kv.1 = true) →
      processedContentE doc vars = .ok (substituteVars doc vars) := by
  intro vars
  induction vars with
  | nil => intro doc _; rfl
  | cons kv rest ih =>
    intro doc h
    rw [processedContentE, if_pos (patOk_wordOnly kv.1 (h kv (by simp)))]
    rw [ih _ (fun x hx => h x (by simp [hx]))]
    rfl

/-- If no pattern `{{name}}` of the variable set occurs in `r`, the
replacement fold leaves `r` unchanged. -/
theorem substituteVarsV_fixed :
    ∀ (vars : List (String × Value)) (r : String),
      (∀ kv ∈ vars, containsSub ("\x7b\x7b" ++ kv.1 ++ "\x7d\x7d").data r.data = false) →
      substituteVarsV r vars = r := by
  intro vars
  induction vars with
  | nil => intro r _; rfl
  | cons kv rest ih =>
    intro r h
    have hstep : replaceVerbatim r ("\x7b\x7b" ++ kv.1 ++ "\x7d\x7d") kv.2.render = r := by
      unfold replaceVerbatim
      rw [replaceAllL_absent _ _ _ (h kv (by simp)), mk_data]
    show substituteVarsV (replaceVerbatim r ("\x7b\x7b" ++ kv.1 ++ "\x7d\x7d") kv.2.render) rest = r
    rw [hstep]
    exact ih r (fun x hx => h x (by simp [hx]))

/-- A dollar-free replacement expands to itself under `GetSubstitution`. -/
theorem getSubstitution_verbatim (matched before after : List Char) :
    ∀ rep, dollarFree rep = true →
      getSubstitution matched before after false rep = rep := by
  intro rep
  induction rep with
  | nil => intro _; rfl
  | cons c cs ih =>
    intro h
    have hc : ¬ c = '$' := by
      have hx := List.all_eq_true.mp h c (by simp)
      simpa using hx
    have hcs : dollarFree cs = true := by
      apply List.all_eq_true.mpr
      intro x hx
      exact List.all_eq_true.mp h x (by simp [hx])
    rw [show getSubstitution matched before after false (c :: cs)
        = if c = '$' then getSubstitution matched before after true cs
          else c :: getSubstitution matched before after false cs from rfl]
    rw [if_neg hc, ih hcs]

/-- With a dollar-free replacement the faithful `replace` model coincides
with the verbatim replacement, for any fuel, scanned prefix and input. -/
theorem jsReplaceF_eq_replaceAllF (pat rep : List Char) (h : dollarFree rep = true) :
    ∀ (f : Nat) (before s : List Char),
      jsReplaceF pat rep f before s = replaceAllF pat rep f s := by
  intro f
  induction f with
  | zero => intro before s; rfl
  | succ f ih =>
    intro before s
    cases s with
    | nil => rfl
    | cons c cs =>
      rw [show jsReplaceF pat rep (f + 1) before (c :: cs)
          = if pat ≠ [] ∧ pat.isPrefixOf (c :: cs) = true then
              getSubstitution pat before ((c :: cs).drop pat.length) false rep
                ++ jsReplaceF pat rep f (before ++ pat) ((c :: cs).drop pat.length)
            else c :: jsReplaceF pat rep f (before ++ [c]) cs from rfl]
      rw [show replaceAllF pat rep (f + 1) (c :: cs)
          = if pat ≠ [] ∧ pat.isPrefixOf (c :: cs) = true then
              rep ++ replaceAllF pat rep f ((c :: cs).drop pat.length)
            else c :: replaceAllF pat rep f cs from rfl]
      by_cases hm : pat ≠ [] ∧ pat.isPrefixOf (c :: cs) = true
      · rw [if_pos hm, if_pos hm, getSubstitution_verbatim pat before _ rep h, ih]
      · rw [if_neg hm, if_neg hm, ih]

/-- For a name that is not entirely digits, the compiled pattern matches
exactly the literal placeholder text. -/
theorem effectivePattern_not_digits (key : String) (h : digitsOnly key = false) :
    effectivePattern key = ("\x7b\x7b" ++ key ++ "\x7d\x7d").data := by
  unfold effectivePattern
  rw [if_neg (by simp [h])]

/-- For a non-digit name and a dollar-free value, the faithful replacement
is the verbatim literal replacement of the placeholder. -/
theorem jsReplaceAll_eq_verbatim (s key rep : String)
    (hk : digitsOnly key = false) (hr : dollarFree rep.data = true) :
    jsReplaceAll s key rep = replaceVerbatim s ("\x7b\x7b" ++ key ++ "\x7d\x7d") rep := by
  unfold jsReplaceAll replaceVerbatim replaceAllL
  rw [effectivePattern_not_digits key hk,
    jsReplaceF_eq_replaceAllF _ rep.data hr s.data.length [] s.data]

/-- If the matched text does not occur in the input, the faithful
replacement is the identity, for any fuel and scanned prefix. -/
theorem jsReplaceF_absent (pat rep : List Char) :
    ∀ s, containsSub pat s = false →
      ∀ (f : Nat) (before : List Char), jsReplaceF pat rep f before s = s := by
  intro s
  induction s with
  | nil =>
    intro _ f before
    cases f with
    | zero => rfl
    | succ f => rfl
  | cons c cs ih =>
    intro h f before
    rw [containsSub] at h
    have h1 : pat.isPrefixOf (c :: cs) = false := by
      cases hq : pat.isPrefixOf (c :: cs) <;> simp [hq] at h ⊢
    have h2 : containsSub pat cs = false := by
      cases hq : containsSub pat cs <;> simp [hq] at h ⊢
    cases f with
    | zero => rfl
    | succ f =>
      rw [show jsReplaceF pat rep (f + 1) before (c :: cs)
          = if pat ≠ [] ∧ pat.isPrefixOf (c :: cs) = true then
              getSubstitution pat before ((c :: cs).drop pat.length) false rep
                ++ jsReplaceF pat rep f (before ++ pat) ((c :: cs).drop pat.length)
            else c :: jsReplaceF pat rep f (before ++ [c]) cs from rfl]
      rw [if_neg (by simp [h1]), ih h2 f (before ++ [c])]

/-- If the compiled pattern's matched text does not occur in the string,
`replace` returns the string unchanged. -/
theorem jsReplaceAll_absent (s key rep : String)
    (h : containsSub (effectivePattern key) s.data = false) :
    jsReplaceAll s key rep = s := by
  unfold jsReplaceAll
  rw [jsReplaceF_absent _ rep.data s.data h s.data.length [], mk_data]

/-- When every name is not entirely digits and every rendered value is
dollar-free, the substitution fold equals the verbatim fold. -/
theorem substituteVars_eq_verbatim :
    ∀ (vars : List (String × Value)) (doc : String),
      (∀ kv ∈ vars, digitsOnly kv.1 = false ∧ dollarFree kv.2.render.data = true) →
      substituteVars doc vars = substituteVarsV doc vars := by
  intro vars
  induction vars with
  | nil => intro doc _; rfl
  | cons kv rest ih =>
    intro doc h
    obtain ⟨h1, h2⟩ := h kv (by simp)
    show substituteVars (jsReplaceAll doc kv.1 kv.2.render) rest =
      substituteVarsV (replaceVerbatim doc ("\x7b\x7b" ++ kv.1 ++ "\x7d\x7d") kv.2.render) rest
    rw [jsReplaceAll_eq_verbatim doc kv.1 kv.2.render h1 h2]
    exact ih _ (fun x hx => h x (by simp [hx]))

/-- If no name is entirely digits and no placeholder `{{name}}` of the
variable set occurs in `r`, the substitution fold leaves `r` unchanged. -/
theorem substituteVars_fixed :
    ∀ (vars : List (String × Value)) (r : String),
      (∀ kv ∈ vars, digitsOnly kv.1 = false ∧
        containsSub ("\x7b\x7b" ++ kv.1 ++ "\x7d\x7d").data r.data = false) →
      substituteVars r vars = r := by
  intro vars
  induction vars with
  | nil => intro r _; rfl
  | cons kv rest ih =>
    intro r h
    obtain ⟨h1, h2⟩ := h kv (by simp)
    have hstep : jsReplaceAll r kv.1 kv.2.render = r := by
      apply jsReplaceAll_absent
      rw [effectivePattern_not_digits kv.1 h1]
      exact h2
    show substituteVars (jsReplaceAll r kv.1 kv.2.render) rest = r
    rw [hstep]
    exact ih r (fun x hx => h x (by simp [hx]))

theorem replTok_lit (k : String) (rep s : List Char) :
    replTok k rep (.lit s) = .lit s := rfl

theorem replTok_ph (k : String) (rep : List Char) (n : String) :
    replTok k rep (.ph n) = if n = k then .lit rep else .ph n := rfl

theorem substTok_lit (vars : List (String × Value)) (s : List Char) :
    substTok vars (.lit s) = .lit s := rfl

theorem substTok_ph (vars : List (String × Value)) (n : String) :
    substTok vars (.ph n) =
      match findVal vars n with
      | some v => .lit v.render.data
      | none => .ph n := rfl

theorem beq_false_of_ne {c d : Char} (h : c ≠ d) : (c == d) = false :=
  beq_eq_false_iff_ne.mpr h

theorem braceFree_mem {l : List Char} (h : braceFree l = true) :
    ∀ c ∈ l, c ≠ '{' ∧ c ≠ '}' := by
  intro c hc
  have hb := List.all_eq_true.mp h c hc
  simp only [Bool.and_eq_true, Bool.not_eq_true'] at hb
  exact ⟨fun he => by subst he; simp at hb, fun he => by subst he; simp at hb⟩

theorem wordOnly_braceFree {s : String} (h : wordOnly s = true) :
    braceFree s.data = true := by
  apply List.all_eq_true.mpr
  intro c hc
  have hw := isWordChar_ne c (List.all_eq_true.mp h c hc)
  simp only [Bool.and_eq_true, Bool.not_eq_true']
  exact ⟨by simpa using hw.2.2.2.2.1, by simpa using hw.2.2.2.2.2⟩

theorem isPrefixOf_cons_cons (a b : Char) (as bs : List Char) :
    (a :: as).isPrefixOf (b :: bs) = (a == b && as.isPrefixOf bs) := rfl

theorem nomatch_of_prefix_false {pat : List Char} {c : Char} {cs : List Char}
    (h : pat.isPrefixOf (c :: cs) = false) :
    ¬ (pat ≠ [] ∧ pat.isPrefixOf (c :: cs) = true) := by
  intro hc
  rw [h] at hc
  exact Bool.false_ne_true hc.2

/-- Replacement skips over a prefix that contains no `{` (the pattern
starts with `{`). -/
theorem replaceAllL_skip (p rep : List Char) :
    ∀ s t, (∀ c ∈ s, c ≠ '{') →
      replaceAllL ('{' :: p) rep (s ++ t) = s ++ replaceAllL ('{' :: p) rep t := by
  intro s
  induction s with
  | nil => intro t _; rfl
  | cons c cs ih =>
    intro t h
    have hne : (('{' : Char) == c) = false :=
      beq_false_of_ne (Ne.symm (h c (by simp)))
    rw [List.cons_append]
    rw [replaceAllL_cons_nomatch _ _ _ _ (nomatch_of_prefix_false (by
      rw [isPrefixOf_cons_cons, hne, Bool.false_and]))]
    rw [ih t (fun x hx => h x (by simp [hx]))]
    rfl

/-- Distinct brace-free keys cannot collide: the tail `k}}` of one pattern
is never a prefix of a placeholder body `n}}…` with `k ≠ n`. -/
theorem not_prefix_key :
    ∀ (k n t : List Char), (∀ c ∈ k, c ≠ '}') → (∀ c ∈ n, c ≠ '}') → k ≠ n →
      (k ++ ['}', '}']).isPrefixOf ((n ++ ['}', '}']) ++ t) = false := by
  intro k
  induction k with
  | nil =>
    intro n t _ hn hne
    cases n with
    | nil => exact absurd rfl hne
    | cons c n' =>
      rw [List.nil_append, List.cons_append, List.cons_append,
        isPrefixOf_cons_cons, beq_false_of_ne (Ne.symm (hn c (by simp))),
        Bool.false_and]
  | cons a k' ih =>
    intro n t hk hn hne
    cases n with
    | nil =>
      rw [List.nil_append, List.cons_append, List.cons_append,
        isPrefixOf_cons_cons, beq_false_of_ne (hk a (by simp)),
        Bool.false_and]
    | cons b n' =>
      rw [List.cons_append, List.cons_append, List.cons_append,
        isPrefixOf_cons_cons]
      by_cases hab : a = b
      · subst hab
        have hne' : k' ≠ n' := fun he => hne (by rw [he])
        rw [ih n' t (fun x hx => hk x (by simp [hx]))
          (fun x hx => hn x (by simp [hx])) hne', Bool.and_false]
      · rw [beq_false_of_ne hab, Bool.false_and]

/-- A pattern `{{…` does not match starting at the second brace of a
well-formed placeholder. -/
theorem not_prefix_open (p : List Char) :
    ∀ (n u : List Char), (∀ c ∈ n, c ≠ '{') →
      ('{' :: p).isPrefixOf ((n ++ ['}', '}']) ++ u) = false := by
  intro n u hn
  cases n with
  | nil =>
    rw [List.nil_append, List.cons_append, isPrefixOf_cons_cons]
    simp
  | cons c n' =>
    rw [List.cons_append, List.cons_append, isPrefixOf_cons_cons,
      beq_false_of_ne (Ne.symm (hn c (by simp))), Bool.false_and]

theorem pattern_data (k : String) :
    ("\x7b\x7b" ++ k ++ "\x7d\x7d").data = '{' :: '{' :: (k.data ++ ['}', '}']) := by
  rw [data_append, data_append]
  rfl

/-- Replacement of a pattern occurring right at the head. -/
theorem replaceAllL_at_match (pat rep t : List Char) (hne : pat ≠ []) :
    replaceAllL pat rep (pat ++ t) = rep ++ replaceAllL pat rep t := by
  cases pat with
  | nil => exact absurd rfl hne
  | cons c cs =>
    rw [List.cons_append]
    rw [replaceAllL_cons_match (c :: cs) rep c (cs ++ t) hne (by
      rw [← List.cons_append]
      exact List.isPrefixOf_iff_prefix.mpr (List.prefix_append _ _))]
    rw [← List.cons_append, List.drop_left]

/-- One replacement pass over a well-formed token text replaces exactly
the placeholders bearing the replaced key. -/
theorem replace_flat (k : String) (rep : List Char)
    (hk : braceFree k.data = true) :
    ∀ ts, wfToks ts = true →
      replaceAllL ("\x7b\x7b" ++ k ++ "\x7d\x7d").data rep (flat ts) =
        flat (ts.map (replTok k rep)) := by
  intro ts
  induction ts with
  | nil => intro _; rfl
  | cons t ts' ih =>
    intro hwf
    have hwft : tokWF t = true := List.all_eq_true.mp hwf t (by simp)
    have hwf' : wfToks ts' = true := by
      apply List.all_eq_true.mpr
      intro x hx
      exact List.all_eq_true.mp hwf x (by simp [hx])
    cases t with
    | lit s =>
      show replaceAllL ("\x7b\x7b" ++ k ++ "\x7d\x7d").data rep (s ++ flat ts') =
        s ++ flat (ts'.map (replTok k rep))
      rw [pattern_data]
      rw [replaceAllL_skip _ _ s (flat ts')
        (fun c hc => (braceFree_mem hwft c hc).1)]
      rw [← pattern_data, ih hwf']
    | ph n =>
      by_cases hn : n = k
      · subst hn
        show replaceAllL ("\x7b\x7b" ++ n ++ "\x7d\x7d").data rep
          (("\x7b\x7b" ++ n ++ "\x7d\x7d").data ++ flat ts') = _
        rw [replaceAllL_at_match _ _ _ (by rw [pattern_data]; simp)]
        rw [ih hwf']
        show rep ++ flat (ts'.map (replTok n rep)) =
          flat (replTok n rep (Tok.ph n) :: ts'.map (replTok n rep))
        rw [replTok_ph, if_pos rfl]
        rfl
      · have hkmem := braceFree_mem hk
        have hnmem := braceFree_mem hwft
        have hdiff : k.data ≠ n.data := fun he => hn (String.ext he).symm
        have hflat : flat (Tok.ph n :: ts') =
            '{' :: '{' :: ((n.data ++ ['}', '}']) ++ flat ts') := by
          show ("\x7b\x7b" ++ n ++ "\x7d\x7d").data ++ flat ts' = _
          rw [pattern_data]
          simp [List.append_assoc]
        have hstep1 : ("\x7b\x7b" ++ k ++ "\x7d\x7d").data.isPrefixOf
            ('{' :: '{' :: ((n.data ++ ['}', '}']) ++ flat ts')) = false := by
          rw [pattern_data, isPrefixOf_cons_cons, isPrefixOf_cons_cons]
          rw [not_prefix_key k.data n.data (flat ts')
            (fun c hc => (hkmem c hc).2)
            (fun c hc => (hnmem c hc).2)
            hdiff]
          simp
        have hstep2 : ("\x7b\x7b" ++ k ++ "\x7d\x7d").data.isPrefixOf
            ('{' :: ((n.data ++ ['}', '}']) ++ flat ts')) = false := by
          rw [pattern_data, isPrefixOf_cons_cons]
          rw [not_prefix_open (k.data ++ ['}', '}']) n.data (flat ts')
            (fun c hc => (hnmem c hc).1)]
          simp
        rw [hflat]
        rw [replaceAllL_cons_nomatch _ _ _ _ (nomatch_of_prefix_false hstep1)]
        rw [replaceAllL_cons_nomatch _ _ _ _ (nomatch_of_prefix_false hstep2)]
        rw [pattern_data]
        rw [replaceAllL_skip _ _ (n.data ++ ['}', '}']) (flat ts')
          (by
            intro c hc
            rcases List.mem_append.mp hc with h1 | h2
            · exact (hnmem c h1).1
            · intro he
              subst he
              simp at h2)]
        rw [← pattern_data, ih hwf']
        show '{' :: '{' :: (n.data ++ ['}', '}'] ++ flat (ts'.map (replTok k rep))) =
          flat ((Tok.ph n :: ts').map (replTok k rep))
        rw [List.map_cons, replTok_ph, if_neg hn]
        show _ = ("\x7b\x7b" ++ n ++ "\x7d\x7d").data ++ flat (ts'.map (replTok k rep))
        rw [pattern_data]
        simp [List.append_assoc]

/-- Replacing a key with a brace-free value preserves token
well-formedness. -/
theorem wfToks_replTok (k : String) (rep : List Char) (hrep : braceFree rep = true) :
    ∀ ts, wfToks ts = true → wfToks (ts.map (replTok k rep)) = true := by
  intro ts hwf
  apply List.all_eq_true.mpr
  intro t ht
  rcases List.mem_map.mp ht with ⟨t0, ht0, rfl⟩
  have hwft : tokWF t0 = true := List.all_eq_true.mp hwf t0 ht0
  cases t0 with
  | lit s => exact hwft
  | ph n =>
    rw [replTok_ph]
    by_cases hn : n = k
    · rw [if_pos hn]
      exact hrep
    · rw [if_neg hn]
      exact hwft

/-- One replacement pass followed by simultaneous substitution over the
remaining bindings equals simultaneous substitution over all bindings. -/
theorem substTok_step (k : String) (v : Value) (rest : List (String × Value)) :
    ∀ t, substTok rest (replTok k v.render.data t) = substTok ((k, v) :: rest) t := by
  intro t
  cases t with
  | lit s => rfl
  | ph n =>
    rw [replTok_ph]
    by_cases hn : n = k
    · rw [if_pos hn, substTok_lit, substTok_ph]
      have : findVal ((k, v) :: rest) n = some v := by
        unfold findVal
        rw [List.find?_cons_of_pos _ (by simp [hn])]
        rfl
      rw [this]
    · rw [if_neg hn, substTok_ph, substTok_ph]
      have : findVal ((k, v) :: rest) n = findVal rest n := by
        unfold findVal
        rw [List.find?_cons_of_neg _ (by simp; exact fun he => hn he.symm)]
      rw [this]

theorem substTok_nil : ∀ t, substTok [] t = t := by
  intro t
  cases t with
  | lit s => rfl
  | ph n => rfl

/-- The sequential replacement loop of `processedContent`, run on a
well-formed token text, equals the specification's simultaneous
substitution. -/
theorem substituteVarsV_flat :
    ∀ (vars : List (String × Value)) (ts : List Tok),
      wfVarsV vars = true → wfToks ts = true →
      substituteVarsV (renderDoc ts) vars = renderDoc (ts.map (substTok vars)) := by
  intro vars
  induction vars with
  | nil =>
    intro ts _ _
    show renderDoc ts = renderDoc (ts.map (substTok []))
    rw [show ts.map (substTok []) = ts from by
      rw [List.map_congr_left (fun t _ => substTok_nil t)]
      simp]
  | cons kv rest ih =>
    intro ts hv hwf
    have hkv : (wordOnly kv.1 && braceFree kv.2.render.data) = true :=
      List.all_eq_true.mp hv kv (by simp)
    obtain ⟨hword, hrep⟩ : wordOnly kv.1 = true ∧ braceFree kv.2.render.data = true := by
      simpa using hkv
    have hv' : wfVarsV rest = true := by
      apply List.all_eq_true.mpr
      intro x hx
      exact List.all_eq_true.mp hv x (by simp [hx])
    show substituteVarsV (replaceVerbatim (renderDoc ts) ("\x7b\x7b" ++ kv.1 ++ "\x7d\x7d") kv.2.render)
        rest = _
    have hrepl : replaceVerbatim (renderDoc ts) ("\x7b\x7b" ++ kv.1 ++ "\x7d\x7d") kv.2.render =
        renderDoc (ts.map (replTok kv.1 kv.2.render.data)) := by
      unfold replaceVerbatim renderDoc
      rw [data_mk]
      rw [replace_flat kv.1 kv.2.render.data (wordOnly_braceFree hword) ts hwf]
    rw [hrepl]
    rw [ih (ts.map (replTok kv.1 kv.2.render.data)) hv'
      (wfToks_replTok kv.1 kv.2.render.data hrep ts hwf)]
    rw [List.map_map]
    refine congrArg renderDoc ?_
    apply List.map_congr_left
    intro t _
    exact substTok_step kv.1 kv.2 rest t

/-! ## The claims -/

/-- Helper for C2: a valid restore always yields a state whose content,
writer script and reader script come from the restored checkpoint and
whose history is the truncation to `[0, index]`; only the variable set,
the database handle and the database status depend on the re-sync. -/
theorem restore_fields {Db : Type} (sem : ScriptSem Db) (s : AppState Db)
    (i : Nat) (h : i < s.history.length) :
    ∃ (v : JsValue) (dbst : DbState) (dbv : Option Db),
      restoreCheckpoint sem (i : Int) s =
        ⟨(s.history.get ⟨i, h⟩).content, (s.history.get ⟨i, h⟩).writerScript,
         (s.history.get ⟨i, h⟩).readerScript, v, dbv, dbst,
         s.history.take (i + 1)⟩ := by
  have hguard : ¬ ((i : Int) < 0 ∨ (s.history.length : Int) ≤ (i : Int)) := by
    omega
  have htoNat : ((i : Int)).toNat = i := Int.toNat_natCast i
  rcases hdb : s.db with _ | db
  · refine ⟨(s.history.get ⟨i, h⟩).vars, s.dbState, none, ?_⟩
    simp only [restoreCheckpoint, hguard, htoNat, List.get?_eq_get h, hdb, if_false]
  · rcases hw : sem.runWriter (s.history.get ⟨i, h⟩).writerScript db with ⟨db1, werr⟩
    cases werr with
    | some e =>
      refine ⟨(s.history.get ⟨i, h⟩).vars,
        ⟨false, some ("Restore Sync Error: " ++ e)⟩, some db1, ?_⟩
      simp only [restoreCheckpoint, hguard, htoNat, List.get?_eq_get h, hdb, hw, if_false]
    | none =>
      rcases hr : sem.runReader (s.history.get ⟨i, h⟩).readerScript db1 with ⟨db2, rres⟩
      cases rres with
      | error e =>
        refine ⟨(s.history.get ⟨i, h⟩).vars,
          ⟨false, some ("Restore Sync Error: " ++ e)⟩, some db2, ?_⟩
        simp only [restoreCheckpoint, hguard, htoNat, List.get?_eq_get h, hdb, hw, hr, if_false]
      | ok newVars =>
        refine ⟨if newVars.truthy then newVars else (s.history.get ⟨i, h⟩).vars,
          ⟨false, s.dbState.error⟩, some db2, ?_⟩
        simp only [restoreCheckpoint, hguard, htoNat, List.get?_eq_get h, hdb, hw, hr, if_false]

/-- C1: when the Writer or the Reader of a sync run throws, the pipeline
leaves the variable set exactly as before the run, leaves the document,
the stored scripts and the checkpoint history intact, and surfaces the
error to the caller as a rejected (`Failed`) result while recording
`Pipeline Error: …` in the database status. -/
theorem C1_sync_failure_preserves_state {Db : Type} (sem : ScriptSem Db)
    (s : AppState Db) (ow ore : Option String) (db : Db)
    (hdb : s.db = some db) (hidle : s.dbState.isSyncing = false)
    (hfail :
      (∃ e, (sem.runWriter (chooseScript ow s.writerScript) db).2 = some e) ∨
      ((sem.runWriter (chooseScript ow s.writerScript) db).2 = none ∧
       ∃ e, (sem.runReader (chooseScript ore s.readerScript)
              (sem.runWriter (chooseScript ow s.writerScript) db).1).2 = .error e)) :
    (handleSync sem ow ore s).1.vars = s.vars ∧
    (handleSync sem ow ore s).1.content = s.content ∧
    (handleSync sem ow ore s).1.writerScript = s.writerScript ∧
    (handleSync sem ow ore s).1.readerScript = s.readerScript ∧
    (handleSync sem ow ore s).1.history = s.history ∧
    ∃ e, (handleSync sem ow ore s).2 = .error e ∧
      (handleSync sem ow ore s).1.dbState.error = some ("Pipeline Error: " ++ e) := by
  rcases hw : sem.runWriter (chooseScript ow s.writerScript) db with ⟨db1, werr⟩
  rcases hfail with ⟨e, he⟩ | ⟨hnone, e, he⟩
  · rw [hw] at he
    simp only at he
    subst he
    have key : handleSync sem ow ore s =
        ({ s with db := some db1,
                  dbState := ⟨false, some ("Pipeline Error: " ++ e)⟩ }, .error e) := by
      simp only [handleSync, hdb, hidle, hw, Bool.false_eq_true, if_false]
    rw [key]
    exact ⟨rfl, rfl, rfl, rfl, rfl, e, rfl, rfl⟩
  · rw [hw] at hnone
    simp only at hnone
    subst hnone
    rw [hw] at he
    simp only at he
    rcases hr : sem.runReader (chooseScript ore s.readerScript) db1 with ⟨db2, rres⟩
    rw [hr] at he
    simp only at he
    cases rres with
    | error e' =>
      have key : handleSync sem ow ore s =
          ({ s with db := some db2,
                    dbState := ⟨false, some ("Pipeline Error: " ++ e')⟩ }, .error e') := by
        simp only [handleSync, hdb, hidle, hw, hr, Bool.false_eq_true, if_false]
      rw [key]
      exact ⟨rfl, rfl, rfl, rfl, rfl, e', rfl, rfl⟩
    | ok v => simp at he

/-- C1 witness: a Writer that mutates the database and throws `boom`
leaves variables, document, scripts and history untouched and surfaces
the error. -/
theorem C1_witness :
    (handleSync semFailW none none sIdle).1.vars = sIdle.vars ∧
    (handleSync semFailW none none sIdle).1.content = sIdle.content ∧
    (handleSync semFailW none none sIdle).1.writerScript = sIdle.writerScript ∧
    (handleSync semFailW none none sIdle).1.readerScript = sIdle.readerScript ∧
    (handleSync semFailW none none sIdle).1.history = sIdle.history ∧
    ∃ e, (handleSync semFailW none none sIdle).2 = .error e ∧
      (handleSync semFailW none none sIdle).1.dbState.error =
        some ("Pipeline Error: " ++ e) :=
  C1_sync_failure_preserves_state semFailW sIdle none none 0 rfl rfl
    (Or.inl ⟨"boom", rfl⟩)

/-- C2 counterexample: the claim says an out-of-range `restore(index)`
fails with `OutOfRange`; in the code `restoreCheckpoint(5)` on a
one-checkpoint history is a silent no-op — the state is returned
unchanged and no error is recorded anywhere, so no failure is surfaced. -/
theorem C2_out_of_range_counterexample :
    restoreCheckpoint semId (5 : Int) sHist1 = sHist1 ∧
    (restoreCheckpoint semId (5 : Int) sHist1).dbState.error = none :=
  ⟨rfl, rfl⟩

/-- C2 as amended: an out-of-range index leaves the state unchanged
(a silent no-op, with no `OutOfRange` error); for every valid index `i`
the restored state has exactly `i + 1` checkpoints — the history is
truncated to `[0, i]`, making later checkpoints unreachable — and its
document, writer-script and reader-script fields are byte-identical to
checkpoint `i`'s recorded fields. -/
theorem C2_restore_truncates {Db : Type} (sem : ScriptSem Db) (s : AppState Db) :
    (∀ idx : Int, idx < 0 ∨ (s.history.length : Int) ≤ idx →
      restoreCheckpoint sem idx s = s) ∧
    (∀ (i : Nat) (h : i < s.history.length),
      (restoreCheckpoint sem (i : Int) s).history = s.history.take (i + 1) ∧
      (restoreCheckpoint sem (i : Int) s).history.length = i + 1 ∧
      (restoreCheckpoint sem (i : Int) s).content = (s.history.get ⟨i, h⟩).content ∧
      (restoreCheckpoint sem (i : Int) s).writerScript =
        (s.history.get ⟨i, h⟩).writerScript ∧
      (restoreCheckpoint sem (i : Int) s).readerScript =
        (s.history.get ⟨i, h⟩).readerScript) := by
  constructor
  · intro idx hidx
    unfold restoreCheckpoint
    rw [if_pos hidx]
  · intro i h
    obtain ⟨v, dbst, dbv, heq⟩ := restore_fields sem s i h
    rw [heq]
    refine ⟨rfl, ?_, rfl, rfl, rfl⟩
    show (s.history.take (i + 1)).length = i + 1
    rw [List.length_take]
    omega

/-- C2 witness: on a three-checkpoint history, restoring index 5 is a
no-op and restoring index 1 truncates to two checkpoints and restores
checkpoint 1's fields. -/
theorem C2_witness :
    restoreCheckpoint semId (5 : Int) sHist3 = sHist3 ∧
    (restoreCheckpoint semId ((1 : Nat) : Int) sHist3).history.length = 2 ∧
    (restoreCheckpoint semId ((1 : Nat) : Int) sHist3).content = "c1" ∧
    (restoreCheckpoint semId ((1 : Nat) : Int) sHist3).writerScript = "w1" ∧
    (restoreCheckpoint semId ((1 : Nat) : Int) sHist3).readerScript = "r1" := by
  have H := C2_restore_truncates semId sHist3
  refine ⟨H.1 5 (by decide), ?_⟩
  have H2 := H.2 1 (by decide)
  exact ⟨H2.2.1, H2.2.2.1, H2.2.2.2.1, H2.2.2.2.2⟩

/-- C3: keeping in order exactly the `unchanged` and `added` lines of
`getDiff(a, b)` reproduces `b`'s line sequence exactly, line for line,
for arbitrary texts `a` and `b`. -/
theorem C3_diff_reconstructs_new (a b : String) :
    reconstructNew (getDiff a b) = splitLines b := by
  unfold getDiff
  exact diffLinesF_reconstruct _ _ _ (Nat.le_refl _)

/-- C4 counterexample: on `a = "x\ny"`, `b = "y"` the code's walk emits
`[removed x, unchanged y]`, while the walk described by the claim — emit
`Added` when the current new-side line occurs in the remaining old-side
lines — would emit `[added y, removed x, removed y]`. -/
theorem C4_claimed_walk_counterexample :
    getDiff "x\ny" "y" ≠ getDiffSpecClaim "x\ny" "y" := by decide

/-- C4 as amended: `getDiff` follows the greedy two-cursor walk with the
branch condition inverted relative to the claim — while the lines at both
cursors match it emits `Unchanged` and advances both; otherwise, if the
current new-side line occurs nowhere in the remaining old-side lines (or
the old side is exhausted), it emits `Added` and advances the new cursor,
else it emits `Removed` and advances the old cursor. -/
theorem C4_amended_greedy_walk (a b : String) :
    getDiff a b = getDiffSpecAmended a b := by
  unfold getDiff getDiffSpecAmended
  exact (diffSpecAmendedF_eq_diffLinesF _ _ _).symm

/-- C5: on the literal input
`"pre [[UPDATE_WRITER]] X [[/UPDATE_WRITER]] mid [[UPDATE: Title]] Y [[/UPDATE]] post"`
extraction yields a writer directive with payload `"X"`, no reader
directive, a document directive with label `"Title"` and payload `"Y"`,
and the user-visible remainder `"pre  mid  post"`, which contains `pre`,
`mid` and `post` with all matched tag spans removed. -/
theorem C5_protocol_extraction :
    processResponse c5Input =
      ⟨some "X", none, some ("Title", "Y"), "pre  mid  post"⟩ ∧
    containsCI "pre".data (processResponse c5Input).chatContent.data = true ∧
    containsCI "mid".data (processResponse c5Input).chatContent.data = true ∧
    containsCI "post".data (processResponse c5Input).chatContent.data = true := by
  decide

/-- C6 counterexample: the claim says a second sync call while one is in
flight is rejected with a busy error; in the code the call returns the
empty object `{}` as a normal (resolved) result, with the state — and in
particular the error field — untouched: no busy error exists. -/
theorem C6_busy_counterexample :
    handleSync semId none none sBusy = (sBusy, .ok (.obj [])) ∧
    ¬ ∃ e, (handleSync semId none none sBusy).2 = Except.error e := by
  refine ⟨rfl, ?_⟩
  rintro ⟨e, he⟩
  exact Except.noConfusion he

/-- C6 as amended: whenever a sync run is already in flight, a second
sync call performs nothing and resolves to the empty object `{}` — it is
neither queued nor executed and no error is surfaced — so at most one
pipeline run is in flight at a time. -/
theorem C6_busy_rejected_silently {Db : Type} (sem : ScriptSem Db)
    (s : AppState Db) (ow ore : Option String)
    (h : s.dbState.isSyncing = true) :
    handleSync sem ow ore s = (s, .ok (.obj [])) := by
  unfold handleSync
  cases hdb : s.db with
  | none => rfl
  | some db => simp only [h, if_true]

/-- C6 witness: a busy state with pending error text is returned entirely
unchanged with the empty-object result. -/
theorem C6_witness :
    handleSync semId none none sBusy2 = (sBusy2, .ok (.obj [])) :=
  C6_busy_rejected_silently semId sBusy2 none none rfl

/-- C7 counterexample: the claim says a Reader output containing a value
of the wrong shape (here the number 3 under key `x`) yields a `BindError`
rather than being accepted; in the code the truthy-object check
`if (newVars && typeof newVars === 'object')` accepts the mapping
wholesale — it is stored as the variable set, the call resolves with it,
and no error is recorded. -/
theorem C7_wrong_shape_accepted :
    (handleSync semBadShape none none sIdle2).1.vars =
      JsValue.obj [("x", JsValue.num 3)] ∧
    (handleSync semBadShape none none sIdle2).2 =
      .ok (JsValue.obj [("x", JsValue.num 3)]) ∧
    (handleSync semBadShape none none sIdle2).1.dbState.error = none :=
  ⟨rfl, rfl, rfl⟩

/-- C7 as amended: binding performs only a truthiness-and-`typeof` check.
A successful Reader run with output `v` stores `v` wholesale as the new
variable set exactly when `v` is a truthy value of JavaScript type
`object` (any mapping or array, regardless of member shapes); any other
output leaves the variable set unchanged.  No `BindError` exists: the
call resolves with `v || {}` and the error field stays empty. -/
theorem C7_bind_truthy_object_only {Db : Type} (sem : ScriptSem Db)
    (s : AppState Db) (ow ore : Option String) (db db1 db2 : Db) (v : JsValue)
    (hdb : s.db = some db) (hidle : s.dbState.isSyncing = false)
    (hw : sem.runWriter (chooseScript ow s.writerScript) db = (db1, none))
    (hr : sem.runReader (chooseScript ore s.readerScript) db1 = (db2, .ok v)) :
    (handleSync sem ow ore s).1.vars =
      (if v.truthy && v.typeofObject then v else s.vars) ∧
    (handleSync sem ow ore s).2 = .ok (if v.truthy then v else .obj []) ∧
    (handleSync sem ow ore s).1.dbState.error = none := by
  have key : handleSync sem ow ore s =
      ({ s with db := some db2,
                vars := if v.truthy && v.typeofObject then v else s.vars,
                dbState := ⟨false, none⟩ },
       .ok (if v.truthy then v else .obj [])) := by
    simp only [handleSync, hdb, hidle, hw, hr, Bool.false_eq_true, if_false]
  rw [key]
  exact ⟨rfl, rfl, rfl⟩

/-- C7 witness: a Reader returning the bare number 7 (truthy, not an
object) leaves the variable set unchanged, resolves with the raw number,
and records no error. -/
theorem C7_witness :
    (handleSync semNum none none sIdle2).1.vars = sIdle2.vars ∧
    (handleSync semNum none none sIdle2).2 = .ok (JsValue.num 7) ∧
    (handleSync semNum none none sIdle2).1.dbState.error = none :=
  C7_bind_truthy_object_only semNum sIdle2 none none 0 0 0 (.num 7) rfl rfl rfl rfl

/-- C8 counterexample: with variables `a ↦ "\x7b\x7bb\x7d\x7d"` and `b ↦ "X"`, the
claim predicts that the document `{{a}}` becomes `{{b}}` — the bound
occurrence replaced by its value as plain text.  The sequential
replacement loop instead also rewrites the freshly inserted text and
yields `X`. -/
theorem C8_cascading_counterexample :
    processedContentE (renderDoc [Tok.ph "a"]) varsC8 ≠
      .ok (renderDoc ([Tok.ph "a"].map (substTok varsC8))) := by
  decide

/-- C8 as amended: for documents made of brace-free literal segments and
placeholders, with variable names made of word characters and not
entirely digits, and rendered values (strings as plain text, tables as
the pipe-delimited markup block of `renderTable`) that are brace-free
and dollar-free, substitution replaces every placeholder of a bound name
by its rendered value in place, leaves placeholders of unbound names
verbatim with no error, and — being a pure function of the document and
the variable list — mutates neither.  (An all-digit name `n` makes
`\x7bn\x7d` a quantifier of the compiled regex, so its placeholder is
not matched; a `$` in a value is a `GetSubstitution` escape, so the
value is not inserted as plain text: both restrictions are necessary.) -/
theorem C8_substitution_on_tokens (ts : List Tok) (vars : List (String × Value))
    (hts : wfToks ts = true) (hvars : wfVars vars = true) :
    processedContentE (renderDoc ts) vars =
      .ok (renderDoc (ts.map (substTok vars))) := by
  have hall : ∀ kv ∈ vars, wordOnly kv.1 = true ∧ digitsOnly kv.1 = false ∧
      braceFree kv.2.render.data = true ∧ dollarFree kv.2.render.data = true := by
    intro kv hkv
    have hb := List.all_eq_true.mp hvars kv hkv
    simp only [Bool.and_eq_true, Bool.not_eq_true'] at hb
    exact ⟨hb.1.1.1, hb.1.1.2, hb.1.2, hb.2⟩
  have hvV : wfVarsV vars = true := by
    apply List.all_eq_true.mpr
    intro kv hkv
    have h := hall kv hkv
    simp [h.1, h.2.2.1]
  rw [processedContentE_ok vars (renderDoc ts) (fun kv hkv => (hall kv hkv).1)]
  rw [substituteVars_eq_verbatim vars (renderDoc ts)
    (fun kv hkv => ⟨(hall kv hkv).2.1, (hall kv hkv).2.2.2⟩)]
  rw [substituteVarsV_flat vars ts hvV hts]

/-- C8 witness: `value={{x}} {{t}}{{zz}}` with `x ↦ "5"` and `t` the
example table becomes `value=5` followed by the rendered two-row table,
with the unbound `{{zz}}` left verbatim. -/
theorem C8_witness :
    processedContentE (renderDoc tsW) varsW =
      .ok (renderDoc (tsW.map (substTok varsW))) :=
  C8_substitution_on_tokens tsW varsW (by decide) (by decide)

/-- C9 counterexample: with `av ↦ "Z"`, `b ↦ "v"` — names of word
characters and values free of any placeholder syntax — substituting into
`{{a{{b}}}}` yields `{{av}}` (the inner replacement glues the document's
own braces into a new bound placeholder), and substituting a second time
yields `Z`: substitution is not idempotent although no value contains
placeholder syntax. -/
theorem C9_not_idempotent_counterexample :
    wfVars varsC9 = true ∧
    processedContentE docC9 varsC9 = .ok "\x7b\x7bav\x7d\x7d" ∧
    processedContentE "\x7b\x7bav\x7d\x7d" varsC9 = .ok "Z" ∧
    substituteVars (substituteVars docC9 varsC9) varsC9 ≠
      substituteVars docC9 varsC9 := by
  decide

/-- C9 as amended: for a variable set whose names are made of word
characters and are not entirely digits, substitution is idempotent
whenever the first substitution's result contains no occurrence of
`{{name}}` for a bound name (values not containing placeholder syntax is
not sufficient, since a replacement inside a nested-brace document can
glue the document's own braces into a new bound placeholder):
substituting a second time with the same variable set returns the
already-substituted document unchanged. -/
theorem C9_idempotent_when_no_residual (doc : String)
    (vars : List (String × Value))
    (hnames : ∀ kv ∈ vars, wordOnly kv.1 = true ∧ digitsOnly kv.1 = false)
    (hfix : ∀ kv ∈ vars,
      containsSub ("\x7b\x7b" ++ kv.1 ++ "\x7d\x7d").data (substituteVars doc vars).data = false) :
    processedContentE doc vars = .ok (substituteVars doc vars) ∧
    processedContentE (substituteVars doc vars) vars =
      .ok (substituteVars doc vars) := by
  have hword : ∀ kv ∈ vars, wordOnly kv.1 = true := fun kv hkv => (hnames kv hkv).1
  refine ⟨processedContentE_ok vars doc hword, ?_⟩
  rw [processedContentE_ok vars _ hword,
    substituteVars_fixed vars _ (fun kv hkv => ⟨(hnames kv hkv).2, hfix kv hkv⟩)]

/-- C9 witness: substituting `x ↦ "5"` into `value={{x}}` yields
`value=5`, and substituting again returns it unchanged. -/
theorem C9_witness :
    processedContentE "value=\x7b\x7bx\x7d\x7d" [("x", Value.str "5")] =
      .ok (substituteVars "value=\x7b\x7bx\x7d\x7d" [("x", Value.str "5")]) ∧
    processedContentE (substituteVars "value=\x7b\x7bx\x7d\x7d" [("x", Value.str "5")])
        [("x", Value.str "5")] =
      .ok (substituteVars "value=\x7b\x7bx\x7d\x7d" [("x", Value.str "5")]) :=
  C9_idempotent_when_no_residual "value=\x7b\x7bx\x7d\x7d" [("x", Value.str "5")]
    (by decide) (by decide)

/-- C10 counterexample: the claim that substitution "replaces all
placeholders" fails for word-character names.  The all-digit name `2`
gives the pattern `{{2}}`, which the regex engine parses as the atom `{`
with the quantifier `\x7b2\x7d` followed by a literal `}`: it matches
the three characters `{{}`, not the placeholder.  So the document
`{{2}}` with the binding `2 ↦ "x"` is returned unchanged — its bound
placeholder is not replaced — while a document containing `{{}` has that
text replaced.  Likewise a value containing `$&` is not inserted
verbatim: `GetSubstitution` expands `$&` to the matched text. -/
theorem C10_digit_name_counterexample :
    wordOnly "2" = true ∧
    processedContentE "\x7b\x7b2\x7d\x7d" [("2", Value.str "x")] = .ok "\x7b\x7b2\x7d\x7d" ∧
    jsReplaceAll "\x7b\x7b\x7d" "2" "x" = "x" ∧
    processedContentE "\x7b\x7bk\x7d\x7d" [("k", Value.str "$&")] = .ok "\x7b\x7bk\x7d\x7d" := by
  decide

/-- C10 as amended: substitution interpolates each variable name into a
regular expression.  For every variable set whose names consist only of
word characters the substitution loop is total — every pattern compiles
and the loop returns the replacement fold — but the fold does not
replace every placeholder of a bound name (all-digit names make the
braces a quantifier), and the name `(` produces the invalid pattern
`{{(}}`, so substitution throws instead of returning a document: it is
not total over all variable names. -/
theorem C10_regex_interpolation :
    (∀ (doc : String) (vars : List (String × Value)),
      (∀ kv ∈ vars, wordOnly kv.1 = true) →
      processedContentE doc vars = .ok (substituteVars doc vars)) ∧
    (∃ e, processedContentE "\x7b\x7b(\x7d\x7d" [("(", Value.str "x")] = .error e) := by
  constructor
  · exact fun doc vars h => processedContentE_ok vars doc h
  · exact ⟨"SyntaxError: invalid regular expression: \x7b\x7b(\x7d\x7d", by decide⟩

/-- C10 witness: word-character names never throw — `value={{x}}` with
`x ↦ "5"` substitutes totally to `value=5`. -/
theorem C10_witness :
    processedContentE "value=\x7b\x7bx\x7d\x7d" [("x", Value.str "5")] = .ok "value=5" := by
  have h := C10_regex_interpolation.1 "value=\x7b\x7bx\x7d\x7d" [("x", Value.str "5")] (by decide)
  rw [h]
  decide

end ThinkNotes
